import Mathlib

/-!
Verification development for the issue-extraction tool (src/run.py).

The single source file defines `parse_args`, `extract_gh_repo_issues`, and the
`__main__` entry point.  We embed the extraction loop shallowly: the GitHub
collaborator (PyGithub) is modelled as an environment `GhEnv` describing, for
each repository lookup, either a failure or the sequence of steps the lazy
issue iterator produces, and, for each issue, the outcome of its comment
fetch.  Side effects (network calls, checkpoint writes, sleeps) are recorded
in an event trace.  Exceptions are modelled with `Except`/`Option GhError`,
mirroring exactly where the Python `try`/`except RateLimitExceededException`
block sits: inside the body of the inner `for` loop, so an exception raised
by the iterator itself (at the `for` statement) is not caught.
-/

namespace GhScrape

/-- Errors raised by the GitHub collaborator.  `rateLimited` models
`RateLimitExceededException`; `other` models every other exception
(network failure, authentication failure, malformed response). -/
inductive GhError where
  | rateLimited
  | other (msg : String)
deriving DecidableEq, Repr

deriving instance DecidableEq for Except

/-- One issue as yielded by the collaborator's issue iterator, together with
the outcome of the (single) comment fetch the loop body performs for it.
The collaborator exposes both a creation and a closure timestamp; timestamps
are epoch integers. -/
structure IssueInput where
  number : Int
  state : String
  title : String
  body : Option String
  created_at : Int
  closed_at : Option Int
  commentsResult : Except GhError (List String)
deriving DecidableEq, Repr

/-- One step of the lazy issue iteration: either the iterator yields an
issue, or its page fetch raises an exception at the `for` statement. -/
inductive IterStep where
  | item (issue : IssueInput)
  | err (e : GhError)
deriving DecidableEq, Repr

/-- The collaborator environment.  `getRepo` maps the full name
`org/repo` to the steps of the issue iteration (or a failure of
`get_repo`/`get_issues`/`totalCount`).  `resetAt k` / `nowAt k` are the reset
epoch returned by `get_rate_limit` and the value of `time.time()` at the k-th
rate-limit handling of the run. -/
structure GhEnv where
  getRepo : String → Except GhError (List IterStep)
  resetAt : Nat → Int
  nowAt : Nat → Int

/-- Stand-in for `datetime.strftime("%m-%d-%Y %H:%M:%S")`: an injective
rendering of the epoch timestamp as a string.  The claims only compare the
rendered strings for equality, never inspect the format. -/
def strftime (t : Int) : String := toString t

/-- The flattened record built at src/run.py lines 80–89. -/
structure IssueRecord where
  repo : String
  number : Int
  state : String
  title : String
  body : Option String
  created_at : String
  closed_at : String
  comments : String
deriving DecidableEq, Repr

/-- Observable side effects of a run, in order. -/
inductive Event where
  | netGetRepo (fullName : String)
  | netGetIssues (fullName : String)
  | netGetComments (repoName : String) (number : Int)
  | netGetRateLimit
  | checkpointWrite (path : String) (records : List IssueRecord)
  | sleep (seconds : Int)
deriving DecidableEq, Repr

/-- Mutable state of the extraction loop: the in-memory collection
`all_issues`, the trace of side effects so far, and how many rate-limit
events have been handled (indexing the clock reads). -/
structure ExtractState where
  all_issues : List IssueRecord
  trace : List Event
  rlCount : Nat
deriving DecidableEq, Repr

/-- The delimiter of src/run.py line 76. -/
def delimiter : String := "<|||||>"

/-- `"<|||||>".join([comment.body for comment in issue.get_comments()])`. -/
def joinComments (bodies : List String) : String :=
  String.intercalate delimiter bodies

/-- The `issue_data` dictionary of src/run.py lines 80–89.  Note line 87:
the `closed_at` field is populated from `issue.created_at`. -/
def mkIssueRecord (repoName : String) (iss : IssueInput) (comments : String) :
    IssueRecord :=
  { repo := repoName
    number := iss.number
    state := iss.state
    title := iss.title
    body := iss.body
    created_at := strftime iss.created_at
    closed_at := strftime iss.created_at
    comments := comments }

/-- `wait_time = (rate_limit.raw_data["core"]["reset"] - time.time()) + 3`
(src/run.py line 101).  There is no clamping. -/
def wait_time (resetEpoch now : Int) : Int :=
  (resetEpoch - now) + 3

/-- The body of the inner `for` loop (src/run.py lines 75–106): the comment
fetch, record construction and append, wrapped in
`try ... except RateLimitExceededException`.  Returns the new state and
`some e` when an exception other than the handled one escapes the body. -/
def processIssue (env : GhEnv) (ds_path repoName : String) (iss : IssueInput)
    (s : ExtractState) : ExtractState × Option GhError :=
  let s1 : ExtractState :=
    { s with trace := s.trace ++ [Event.netGetComments repoName iss.number] }
  match iss.commentsResult with
  | Except.ok bodies =>
      let r := mkIssueRecord repoName iss (joinComments bodies)
      ({ s1 with all_issues := s1.all_issues ++ [r] }, none)
  | Except.error GhError.rateLimited =>
      -- the except handler, lines 93–106: checkpoint, query reset, sleep
      let s2 : ExtractState :=
        { s1 with trace := s1.trace ++
            [Event.checkpointWrite ds_path s1.all_issues,
             Event.netGetRateLimit] }
      let w := wait_time (env.resetAt s2.rlCount) (env.nowAt s2.rlCount)
      ({ s2 with trace := s2.trace ++ [Event.sleep w],
                 rlCount := s2.rlCount + 1 }, none)
  | Except.error e => (s1, some e)

/-- The inner `for` loop over the issue iterator (src/run.py line 74).  An
exception raised by the iterator itself (an `IterStep.err`) escapes at the
`for` statement, outside the `try` block, so it is never handled here. -/
def processSteps (env : GhEnv) (ds_path repoName : String) :
    List IterStep → ExtractState → ExtractState × Option GhError
  | [], s => (s, none)
  | IterStep.err e :: _, s => (s, some e)
  | IterStep.item iss :: rest, s =>
      match processIssue env ds_path repoName iss s with
      | (s', none) => processSteps env ds_path repoName rest s'
      | (s', some e) => (s', some e)

/-- The outer `for` loop over repository names (src/run.py lines 63–106).
Per repository: client construction (no network), `gh.get_repo` (network),
`repo.get_issues` plus `totalCount` (network), then the inner loop. -/
def processRepos (env : GhEnv) (gh_org ds_path : String) :
    List String → ExtractState → ExtractState × Option GhError
  | [], s => (s, none)
  | repo_name :: rest, s =>
      let full := gh_org ++ "/" ++ repo_name
      let s1 : ExtractState :=
        { s with trace := s.trace ++ [Event.netGetRepo full] }
      match env.getRepo full with
      | Except.error e => (s1, some e)
      | Except.ok steps =>
          let s2 : ExtractState :=
            { s1 with trace := s1.trace ++ [Event.netGetIssues full] }
          match processSteps env ds_path repo_name steps s2 with
          | (s', none) => processRepos env gh_org ds_path rest s'
          | (s', some e) => (s', some e)

/-- Result of a run of `extract_gh_repo_issues`: the in-memory collection at
termination (the returned dataset when `err = none`), the side-effect trace,
and the uncaught exception if the run terminated abnormally. -/
structure ExtractResult where
  records : List IssueRecord
  trace : List Event
  err : Option GhError
deriving DecidableEq, Repr

/-- src/run.py lines 28–110.  The token is opaque: client construction
performs no network activity and no validation. -/
def extract_gh_repo_issues (env : GhEnv) (gh_org : String)
    (gh_repos : List String) (gh_token : String) (ds_path : String) :
    ExtractResult :=
  let s0 : ExtractState := { all_issues := [], trace := [], rlCount := 0 }
  match processRepos env gh_org ds_path gh_repos s0 with
  | (s, none) => { records := s.all_issues, trace := s.trace, err := none }
  | (s, some e) => { records := s.all_issues, trace := s.trace, err := some e }

/-- The `__main__` glue (src/run.py lines 113–119): parsed arguments.
`argparse` declares every flag without `required=True`, so a flag the user
omits parses to `None` rather than raising a parser error; `parse_args`
performs no further validation. -/
structure Args where
  org : Option String
  repos : Option (List String)
  gh_token : Option String
  hf_token : Option String
  hf_repo : Option String
  ds_path : Option String
deriving DecidableEq, Repr

/-- How Python renders a possibly-missing string inside an f-string:
`None` formats as the literal text "None". -/
def pyStr : Option String → String
  | some s => s
  | none => "None"

/-- Outcome of the `__main__` entry point up to the end of extraction.
Calling `extract_gh_repo_issues` with `gh_repos = None` raises `TypeError`
at the `for` statement, before any network activity; otherwise extraction
runs (the final `push_to_hub` is outside the extraction core). -/
inductive MainOutcome where
  | typeError
  | ran (r : ExtractResult)
deriving DecidableEq, Repr

/-- src/run.py lines 113–119: call `extract_gh_repo_issues` on the parsed
arguments without any validation, with `ds_path="./hf_repo_issues"`. -/
def main_run (env : GhEnv) (args : Args) : MainOutcome :=
  match args.repos with
  | none => MainOutcome.typeError
  | some rs =>
      MainOutcome.ran (extract_gh_repo_issues env (pyStr args.org) rs
        (pyStr args.gh_token) "./hf_repo_issues")

/-! ### Derived observations used by the statements -/

/-- Whether a comment-fetch outcome is a successful response. -/
def isOk : Except GhError (List String) → Bool
  | Except.ok _ => true
  | Except.error _ => false

/-- The bodies of a successful comment-fetch outcome. -/
def okBodies : Except GhError (List String) → List String
  | Except.ok bs => bs
  | Except.error _ => []

/-- The record the loop builds for an issue whose comment fetch succeeds. -/
def recordOf (repoName : String) (iss : IssueInput) : IssueRecord :=
  mkIssueRecord repoName iss (joinComments (okBodies iss.commentsResult))

/-- The network event of an issue's comment fetch. -/
def commentEventOf (repoName : String) (iss : IssueInput) : Event :=
  Event.netGetComments repoName iss.number

/-- Whether an event is a checkpoint write. -/
def isCheckpoint : Event → Bool
  | Event.checkpointWrite _ _ => true
  | _ => false

/-- The checkpoint writes of a trace, in order. -/
def checkpointEvents (t : List Event) : List Event :=
  t.filter isCheckpoint

/-- Whether an event is an outbound network call. -/
def isNetworkEvent : Event → Bool
  | Event.netGetRepo _ => true
  | Event.netGetIssues _ => true
  | Event.netGetComments _ _ => true
  | Event.netGetRateLimit => true
  | Event.checkpointWrite _ _ => false
  | Event.sleep _ => false

/-- The trace of a main-run outcome (empty when extraction never started). -/
def ranTrace : MainOutcome → List Event
  | MainOutcome.typeError => []
  | MainOutcome.ran r => r.trace

/-- A single-repository environment: the given full name resolves to the
given iteration steps, every other lookup fails; the clocks are constant. -/
def singleRepoEnv (fullName : String) (steps : List IterStep) (R N : Int) :
    GhEnv :=
  { getRepo := fun s =>
      if s = fullName then Except.ok steps
      else Except.error (GhError.other "not found")
    resetAt := fun _ => R
    nowAt := fun _ => N }

/-- Whether an event is a comment-fetch network call. -/
def isCommentFetch : Event → Bool
  | Event.netGetComments _ _ => true
  | _ => false

/-- Test fixture: an issue whose comment fetch succeeds with the given
bodies. -/
def issOk (k : Int) (bs : List String) : IssueInput :=
  ⟨k, "open", "title", none, 5, none, Except.ok bs⟩

/-- Test fixture: an issue whose comment fetch raises the rate-limit
signal. -/
def issRL (k : Int) : IssueInput :=
  ⟨k, "open", "title", none, 5, none, Except.error GhError.rateLimited⟩

/-- Test fixture: an issue whose comment fetch raises a non-rate-limit
error. -/
def issErr (k : Int) (m : String) : IssueInput :=
  ⟨k, "open", "title", none, 5, none, Except.error (GhError.other m)⟩

/-- Test fixture: issue lists for a two-repository collaborator. -/
def issuesOfW : String → List IssueInput := fun nm =>
  if nm = "r1" then [issOk 1 ["a"], issOk 2 []]
  else if nm = "r2" then [issOk 3 ["b", "c"]] else []

/-- Test fixture: a two-repository environment serving `issuesOfW`. -/
def envW : GhEnv :=
  ⟨fun s =>
    if s = "o/r1" then Except.ok ((issuesOfW "r1").map IterStep.item)
    else if s = "o/r2" then Except.ok ((issuesOfW "r2").map IterStep.item)
    else Except.error (GhError.other "not found"),
   fun _ => 0, fun _ => 0⟩

/-! ### Loop lemmas -/

lemma processSteps_append (env : GhEnv) (p n : String) (l1 l2 : List IterStep)
    (s : ExtractState) :
    processSteps env p n (l1 ++ l2) s =
      match processSteps env p n l1 s with
      | (s', none) => processSteps env p n l2 s'
      | (s', some e) => (s', some e) := by
  induction l1 generalizing s with
  | nil => simp [processSteps]
  | cons hd tl ih =>
      cases hd with
      | err e => simp [processSteps]
      | item iss =>
          simp only [List.cons_append, processSteps]
          rcases hpi : processIssue env p n iss s with ⟨s', o⟩
          cases o with
          | none => simp [ih]
          | some e => simp

lemma processSteps_allOk (env : GhEnv) (p n : String)
    (issues : List IssueInput) (s : ExtractState)
    (h : ∀ iss ∈ issues, isOk iss.commentsResult = true) :
    processSteps env p n (issues.map IterStep.item) s =
      (⟨s.all_issues ++ issues.map (recordOf n),
        s.trace ++ issues.map (commentEventOf n), s.rlCount⟩, none) := by
  induction issues generalizing s with
  | nil => simp [processSteps]
  | cons x xs ih =>
      have hx := h x (List.mem_cons_self _ _)
      obtain ⟨bs, hbs⟩ : ∃ bs, x.commentsResult = Except.ok bs := by
        cases hcr : x.commentsResult with
        | ok bs => exact ⟨bs, rfl⟩
        | error e => rw [hcr] at hx; simp [isOk] at hx
      simp only [List.map_cons, processSteps, processIssue, hbs]
      rw [ih _ (fun i hi => h i (List.mem_cons_of_mem _ hi))]
      simp [recordOf, okBodies, hbs, commentEventOf, mkIssueRecord]

lemma processIssue_rl (env : GhEnv) (p n : String) (x : IssueInput)
    (s : ExtractState)
    (hx : x.commentsResult = Except.error GhError.rateLimited) :
    processIssue env p n x s =
      (⟨s.all_issues,
        s.trace ++ [commentEventOf n x, Event.checkpointWrite p s.all_issues,
          Event.netGetRateLimit,
          Event.sleep (wait_time (env.resetAt s.rlCount) (env.nowAt s.rlCount))],
        s.rlCount + 1⟩, none) := by
  simp [processIssue, hx, commentEventOf]

lemma processSteps_rl (env : GhEnv) (p n : String) (A : List IssueInput)
    (x : IssueInput) (B : List IssueInput) (s : ExtractState)
    (hA : ∀ iss ∈ A, isOk iss.commentsResult = true)
    (hx : x.commentsResult = Except.error GhError.rateLimited)
    (hB : ∀ iss ∈ B, isOk iss.commentsResult = true) :
    processSteps env p n
        (A.map IterStep.item ++ IterStep.item x :: B.map IterStep.item) s =
      (⟨s.all_issues ++ A.map (recordOf n) ++ B.map (recordOf n),
        s.trace ++ A.map (commentEventOf n) ++
          [commentEventOf n x,
           Event.checkpointWrite p (s.all_issues ++ A.map (recordOf n)),
           Event.netGetRateLimit,
           Event.sleep (wait_time (env.resetAt s.rlCount) (env.nowAt s.rlCount))]
          ++ B.map (commentEventOf n),
        s.rlCount + 1⟩, none) := by
  rw [processSteps_append, processSteps_allOk env p n A s hA]
  simp only [processSteps, processIssue_rl env p n x _ hx]
  rw [processSteps_allOk env p n B _ hB]

lemma extract_single_repo (env : GhEnv) (org n tok p : String)
    (steps : List IterStep)
    (hrepo : env.getRepo (org ++ "/" ++ n) = Except.ok steps) :
    extract_gh_repo_issues env org [n] tok p =
      (match processSteps env p n steps
          ⟨[], [Event.netGetRepo (org ++ "/" ++ n),
                Event.netGetIssues (org ++ "/" ++ n)], 0⟩ with
       | (s, none) => { records := s.all_issues, trace := s.trace, err := none }
       | (s, some e) =>
          { records := s.all_issues, trace := s.trace, err := some e }) := by
  simp only [extract_gh_repo_issues, processRepos, hrepo, List.nil_append,
    List.singleton_append]
  rcases hps : processSteps env p n steps
      ⟨[], [Event.netGetRepo (org ++ "/" ++ n),
            Event.netGetIssues (org ++ "/" ++ n)], 0⟩ with ⟨s, o⟩
  cases o <;> rfl

lemma extract_rl_run (org n tok p : String) (A : List IssueInput)
    (x : IssueInput) (B : List IssueInput) (R N : Int)
    (hA : ∀ iss ∈ A, isOk iss.commentsResult = true)
    (hx : x.commentsResult = Except.error GhError.rateLimited)
    (hB : ∀ iss ∈ B, isOk iss.commentsResult = true) :
    extract_gh_repo_issues
        (singleRepoEnv (org ++ "/" ++ n)
          (A.map IterStep.item ++ IterStep.item x :: B.map IterStep.item) R N)
        org [n] tok p =
      { records := A.map (recordOf n) ++ B.map (recordOf n)
        trace := Event.netGetRepo (org ++ "/" ++ n) ::
          Event.netGetIssues (org ++ "/" ++ n) ::
          (A.map (commentEventOf n) ++
            [commentEventOf n x,
             Event.checkpointWrite p (A.map (recordOf n)),
             Event.netGetRateLimit, Event.sleep (wait_time R N)] ++
            B.map (commentEventOf n))
        err := none } := by
  rw [extract_single_repo _ org n tok p
    (A.map IterStep.item ++ IterStep.item x :: B.map IterStep.item)
    (by simp [singleRepoEnv])]
  rw [processSteps_rl _ p n A x B _ hA hx hB]
  simp [singleRepoEnv]

lemma processRepos_allOk (env : GhEnv) (org p : String) (repos : List String)
    (issuesOf : String → List IssueInput) (s : ExtractState)
    (hrepo : ∀ nm ∈ repos,
      env.getRepo (org ++ "/" ++ nm) = Except.ok ((issuesOf nm).map IterStep.item))
    (hok : ∀ nm ∈ repos, ∀ iss ∈ issuesOf nm, isOk iss.commentsResult = true) :
    processRepos env org p repos s =
      (⟨s.all_issues ++ repos.flatMap (fun nm => (issuesOf nm).map (recordOf nm)),
        s.trace ++ repos.flatMap (fun nm =>
          Event.netGetRepo (org ++ "/" ++ nm) ::
            Event.netGetIssues (org ++ "/" ++ nm) ::
            (issuesOf nm).map (commentEventOf nm)),
        s.rlCount⟩, none) := by
  induction repos generalizing s with
  | nil => simp [processRepos]
  | cons nm rest ih =>
      simp only [processRepos, hrepo nm (List.mem_cons_self _ _)]
      rw [processSteps_allOk env p nm (issuesOf nm) _
        (hok nm (List.mem_cons_self _ _))]
      show processRepos env org p rest
          ⟨s.all_issues ++ (issuesOf nm).map (recordOf nm),
           s.trace ++ [Event.netGetRepo (org ++ "/" ++ nm)] ++
             [Event.netGetIssues (org ++ "/" ++ nm)] ++
             (issuesOf nm).map (commentEventOf nm),
           s.rlCount⟩ = _
      rw [ih _ (fun a ha => hrepo a (List.mem_cons_of_mem _ ha))
        (fun a ha => hok a (List.mem_cons_of_mem _ ha))]
      simp

lemma processSteps_records_pred (P : IssueRecord → Prop)
    (hP : ∀ nm i c, P (mkIssueRecord nm i c)) (env : GhEnv) (p n : String)
    (steps : List IterStep) (s : ExtractState)
    (hs : ∀ r ∈ s.all_issues, P r) :
    ∀ r ∈ ((processSteps env p n steps s).1).all_issues, P r := by
  induction steps generalizing s with
  | nil => simpa [processSteps] using hs
  | cons hd tl ih =>
      cases hd with
      | err e => simpa [processSteps] using hs
      | item iss =>
          simp only [processSteps, processIssue]
          cases hcr : iss.commentsResult with
          | ok bs =>
              exact ih _ (by
                intro r hr
                rcases List.mem_append.mp hr with h | h
                · exact hs r h
                · rcases List.mem_singleton.mp h with rfl; exact hP _ _ _)
          | error e =>
              cases e with
              | rateLimited => exact ih _ hs
              | other m => simpa using hs

lemma processRepos_records_pred (P : IssueRecord → Prop)
    (hP : ∀ nm i c, P (mkIssueRecord nm i c)) (env : GhEnv) (org p : String)
    (repos : List String) (s : ExtractState)
    (hs : ∀ r ∈ s.all_issues, P r) :
    ∀ r ∈ ((processRepos env org p repos s).1).all_issues, P r := by
  induction repos generalizing s with
  | nil => simpa [processRepos] using hs
  | cons nm rest ih =>
      cases hr : env.getRepo (org ++ "/" ++ nm) with
      | error e =>
          simp only [processRepos, hr]
          simpa using hs
      | ok steps =>
          have hmid := processSteps_records_pred P hP env p nm steps
            ⟨s.all_issues,
             s.trace ++ [Event.netGetRepo (org ++ "/" ++ nm)] ++
               [Event.netGetIssues (org ++ "/" ++ nm)], s.rlCount⟩ hs
          rcases hps : processSteps env p nm steps
              ⟨s.all_issues,
               s.trace ++ [Event.netGetRepo (org ++ "/" ++ nm)] ++
                 [Event.netGetIssues (org ++ "/" ++ nm)], s.rlCount⟩ with ⟨s', o⟩
          rw [hps] at hmid
          cases o with
          | none =>
              simp only [processRepos, hr, hps]
              exact ih _ hmid
          | some e =>
              simp only [processRepos, hr, hps]
              exact hmid

lemma processSteps_err_fetch (env : GhEnv) (p n : String)
    (A : List IssueInput) (x : IssueInput) (rest : List IterStep) (m : String)
    (s : ExtractState)
    (hA : ∀ iss ∈ A, isOk iss.commentsResult = true)
    (hx : x.commentsResult = Except.error (GhError.other m)) :
    processSteps env p n (A.map IterStep.item ++ IterStep.item x :: rest) s =
      (⟨s.all_issues ++ A.map (recordOf n),
        s.trace ++ A.map (commentEventOf n) ++ [commentEventOf n x],
        s.rlCount⟩, some (GhError.other m)) := by
  rw [processSteps_append, processSteps_allOk env p n A s hA]
  simp [processSteps, processIssue, hx, commentEventOf]

lemma processSteps_err_iter (env : GhEnv) (p n : String)
    (A : List IssueInput) (e : GhError) (rest : List IterStep)
    (s : ExtractState)
    (hA : ∀ iss ∈ A, isOk iss.commentsResult = true) :
    processSteps env p n (A.map IterStep.item ++ IterStep.err e :: rest) s =
      (⟨s.all_issues ++ A.map (recordOf n),
        s.trace ++ A.map (commentEventOf n),
        s.rlCount⟩, some e) := by
  rw [processSteps_append, processSteps_allOk env p n A s hA]
  simp [processSteps]

lemma extract_trace_eq (env : GhEnv) (org : String) (repos : List String)
    (tok p : String) :
    (extract_gh_repo_issues env org repos tok p).trace =
      ((processRepos env org p repos ⟨[], [], 0⟩).1).trace := by
  simp only [extract_gh_repo_issues]
  rcases processRepos env org p repos ⟨[], [], 0⟩ with ⟨s, o⟩
  cases o <;> rfl

lemma processIssue_trace_app (env : GhEnv) (p n : String) (iss : IssueInput)
    (s : ExtractState) :
    ∃ t, ((processIssue env p n iss s).1).trace = s.trace ++ t := by
  simp only [processIssue]
  cases iss.commentsResult with
  | ok bs => exact ⟨_, rfl⟩
  | error e =>
      cases e with
      | rateLimited =>
          exact ⟨[Event.netGetComments n iss.number,
            Event.checkpointWrite p s.all_issues, Event.netGetRateLimit,
            Event.sleep (wait_time (env.resetAt s.rlCount) (env.nowAt s.rlCount))],
            by simp⟩
      | other m => exact ⟨_, rfl⟩

lemma processSteps_trace_app (env : GhEnv) (p n : String)
    (steps : List IterStep) (s : ExtractState) :
    ∃ t, ((processSteps env p n steps s).1).trace = s.trace ++ t := by
  induction steps generalizing s with
  | nil => exact ⟨[], by simp [processSteps]⟩
  | cons hd tl ih =>
      cases hd with
      | err e => exact ⟨[], by simp [processSteps]⟩
      | item iss =>
          obtain ⟨t1, ht1⟩ := processIssue_trace_app env p n iss s
          rcases hpi : processIssue env p n iss s with ⟨s', o⟩
          rw [hpi] at ht1
          have ht1' : s'.trace = s.trace ++ t1 := ht1
          cases o with
          | none =>
              obtain ⟨t2, ht2⟩ := ih s'
              refine ⟨t1 ++ t2, ?_⟩
              simp only [processSteps, hpi]
              simp [ht2, ht1']
          | some e =>
              refine ⟨t1, ?_⟩
              simp only [processSteps, hpi]
              exact ht1'

lemma processRepos_trace_app (env : GhEnv) (org p : String)
    (repos : List String) (s : ExtractState) :
    ∃ t, ((processRepos env org p repos s).1).trace = s.trace ++ t := by
  induction repos generalizing s with
  | nil => exact ⟨[], by simp [processRepos]⟩
  | cons nm rest ih =>
      cases hr : env.getRepo (org ++ "/" ++ nm) with
      | error e =>
          refine ⟨[Event.netGetRepo (org ++ "/" ++ nm)], ?_⟩
          simp [processRepos, hr]
      | ok steps =>
          obtain ⟨t1, ht1⟩ := processSteps_trace_app env p nm steps
            ⟨s.all_issues,
             s.trace ++ [Event.netGetRepo (org ++ "/" ++ nm)] ++
               [Event.netGetIssues (org ++ "/" ++ nm)], s.rlCount⟩
          rcases hps : processSteps env p nm steps
              ⟨s.all_issues,
               s.trace ++ [Event.netGetRepo (org ++ "/" ++ nm)] ++
                 [Event.netGetIssues (org ++ "/" ++ nm)], s.rlCount⟩ with ⟨s', o⟩
          rw [hps] at ht1
          have ht1' : s'.trace =
              s.trace ++ [Event.netGetRepo (org ++ "/" ++ nm)] ++
                [Event.netGetIssues (org ++ "/" ++ nm)] ++ t1 := ht1
          cases o with
          | none =>
              obtain ⟨t2, ht2⟩ := ih s'
              refine ⟨Event.netGetRepo (org ++ "/" ++ nm) ::
                Event.netGetIssues (org ++ "/" ++ nm) :: (t1 ++ t2), ?_⟩
              simp only [processRepos, hr, hps]
              simp [ht2, ht1']
          | some e =>
              refine ⟨Event.netGetRepo (org ++ "/" ++ nm) ::
                Event.netGetIssues (org ++ "/" ++ nm) :: t1, ?_⟩
              simp only [processRepos, hr, hps]
              simp [ht1']

lemma extract_trace_head (env : GhEnv) (org : String) (nm : String)
    (rest : List String) (tok p : String) :
    (extract_gh_repo_issues env org (nm :: rest) tok p).trace.head? =
      some (Event.netGetRepo (org ++ "/" ++ nm)) := by
  rw [extract_trace_eq]
  cases hr : env.getRepo (org ++ "/" ++ nm) with
  | error e => simp [processRepos, hr]
  | ok steps =>
      obtain ⟨t1, ht1⟩ := processSteps_trace_app env p nm steps
        ⟨[], [] ++ [Event.netGetRepo (org ++ "/" ++ nm)] ++
           [Event.netGetIssues (org ++ "/" ++ nm)], 0⟩
      rcases hps : processSteps env p nm steps
          ⟨[], [] ++ [Event.netGetRepo (org ++ "/" ++ nm)] ++
             [Event.netGetIssues (org ++ "/" ++ nm)], 0⟩ with ⟨s', o⟩
      rw [hps] at ht1
      have ht1' : s'.trace =
          [] ++ [Event.netGetRepo (org ++ "/" ++ nm)] ++
            [Event.netGetIssues (org ++ "/" ++ nm)] ++ t1 := ht1
      cases o with
      | none =>
          obtain ⟨t2, ht2⟩ := processRepos_trace_app env org p rest s'
          simp only [processRepos, hr, hps]
          simp [ht2, ht1']
      | some e =>
          simp only [processRepos, hr, hps]
          simp [ht1']

lemma extract_records_eq (env : GhEnv) (org : String) (repos : List String)
    (tok p : String) :
    (extract_gh_repo_issues env org repos tok p).records =
      ((processRepos env org p repos ⟨[], [], 0⟩).1).all_issues := by
  simp only [extract_gh_repo_issues]
  rcases processRepos env org p repos ⟨[], [], 0⟩ with ⟨s, o⟩
  cases o <;> rfl

lemma filter_isCheckpoint_comments (n : String) (l : List IssueInput) :
    (l.map (commentEventOf n)).filter isCheckpoint = [] := by
  induction l with
  | nil => rfl
  | cons a t ih => simp [commentEventOf, isCheckpoint, ih]

lemma filter_isCommentFetch_comments (n : String) (l : List IssueInput) :
    (l.map (commentEventOf n)).filter isCommentFetch =
      l.map (commentEventOf n) := by
  induction l with
  | nil => rfl
  | cons a t ih => simp [commentEventOf, isCommentFetch, ih]

lemma extract_err_iter_run (org n tok p : String) (A : List IssueInput)
    (e : GhError) (rest : List IterStep) (R N : Int)
    (hA : ∀ iss ∈ A, isOk iss.commentsResult = true) :
    extract_gh_repo_issues
        (singleRepoEnv (org ++ "/" ++ n)
          (A.map IterStep.item ++ IterStep.err e :: rest) R N)
        org [n] tok p =
      { records := A.map (recordOf n)
        trace := Event.netGetRepo (org ++ "/" ++ n) ::
          Event.netGetIssues (org ++ "/" ++ n) :: A.map (commentEventOf n)
        err := some e } := by
  rw [extract_single_repo _ org n tok p
    (A.map IterStep.item ++ IterStep.err e :: rest) (by simp [singleRepoEnv])]
  rw [processSteps_err_iter _ p n A e rest _ hA]
  simp

lemma extract_err_fetch_run (org n tok p : String) (A : List IssueInput)
    (x : IssueInput) (rest : List IterStep) (m : String) (R N : Int)
    (hA : ∀ iss ∈ A, isOk iss.commentsResult = true)
    (hx : x.commentsResult = Except.error (GhError.other m)) :
    extract_gh_repo_issues
        (singleRepoEnv (org ++ "/" ++ n)
          (A.map IterStep.item ++ IterStep.item x :: rest) R N)
        org [n] tok p =
      { records := A.map (recordOf n)
        trace := Event.netGetRepo (org ++ "/" ++ n) ::
          Event.netGetIssues (org ++ "/" ++ n) ::
          (A.map (commentEventOf n) ++ [commentEventOf n x])
        err := some (GhError.other m) } := by
  rw [extract_single_repo _ org n tok p
    (A.map IterStep.item ++ IterStep.item x :: rest) (by simp [singleRepoEnv])]
  rw [processSteps_err_fetch _ p n A x rest m _ hA hx]
  simp

lemma extract_allOk_run (org n tok p : String) (issues : List IssueInput)
    (R N : Int)
    (h : ∀ iss ∈ issues, isOk iss.commentsResult = true) :
    extract_gh_repo_issues
        (singleRepoEnv (org ++ "/" ++ n) (issues.map IterStep.item) R N)
        org [n] tok p =
      { records := issues.map (recordOf n)
        trace := Event.netGetRepo (org ++ "/" ++ n) ::
          Event.netGetIssues (org ++ "/" ++ n) :: issues.map (commentEventOf n)
        err := none } := by
  rw [extract_single_repo _ org n tok p (issues.map IterStep.item)
    (by simp [singleRepoEnv])]
  rw [processSteps_allOk _ p n issues _ h]
  simp

/-! ### Claims -/

/-- C1 counterexample: with the rate-limit reset epoch 100 already in the
past of the clock reading 110, the extraction loop computes and requests a
sleep of -7 seconds, which differs from the claimed
max(0, resetEpoch - now) + 3 = 3 and is negative: the computed wait is not
clamped. -/
theorem C1_counterexample :
    Event.sleep (-7) ∈
      (extract_gh_repo_issues
        (singleRepoEnv "o/r" [IterStep.item (issRL 1)] 100 110)
        "o" ["r"] "t" "p").trace
    ∧ ((-7 : Int) ≠ max 0 ((100 : Int) - 110) + 3) ∧ ((-7 : Int) < 0) := by
  decide

/-- C1 (amended): when a rate-limit signal is handled, the computed wait is
exactly (resetEpoch - now) + 3 with no clamping: for resetEpoch = now + 120
the wait is 123 seconds, but the wait can be negative when the reset epoch
is already more than 3 seconds in the past. -/
theorem C1_wait_without_clamp (R N : Int) (org n tok p : String) (k : Int) :
    Event.sleep (wait_time R N) ∈
      (extract_gh_repo_issues
        (singleRepoEnv (org ++ "/" ++ n) [IterStep.item (issRL k)] R N)
        org [n] tok p).trace
    ∧ wait_time R N = (R - N) + 3
    ∧ wait_time (N + 120) N = 123 := by
  refine ⟨?_, rfl, by simp only [wait_time]; omega⟩
  have h := extract_rl_run org n tok p [] (issRL k) [] R N
    (by simp) rfl (by simp)
  rw [show ([] : List IssueInput).map IterStep.item ++
      IterStep.item (issRL k) :: ([] : List IssueInput).map IterStep.item =
      [IterStep.item (issRL k)] from rfl] at h
  rw [h]
  simp

/-- C4: every record in the returned collection has its closed_at string
equal to its created_at string — src/run.py line 87 populates closed_at
from issue.created_at for open and closed issues alike. -/
theorem C4_closed_at_is_created_at (env : GhEnv) (org : String)
    (repos : List String) (tok p : String) :
    ∀ r ∈ (extract_gh_repo_issues env org repos tok p).records,
      r.closed_at = r.created_at := by
  rw [extract_records_eq]
  exact processRepos_records_pred (fun r => r.closed_at = r.created_at)
    (fun nm i c => rfl) env org p repos ⟨[], [], 0⟩ (by simp)

/-- C4 witness: the record extracted for a concrete one-issue repository has
equal closed_at and created_at strings. -/
theorem C4_witness :
    (recordOf "r" (issOk 1 ["a"])).closed_at =
      (recordOf "r" (issOk 1 ["a"])).created_at :=
  C4_closed_at_is_created_at
    (singleRepoEnv "o/r" [IterStep.item (issOk 1 ["a"])] 0 0)
    "o" ["r"] "t" "p" (recordOf "r" (issOk 1 ["a"])) (by decide)

/-- C10: calling the extraction routine with an empty repository list
returns an empty collection, performs no network calls and writes no
checkpoint — the whole run has an empty side-effect trace. -/
theorem C10_empty_repos (env : GhEnv) (org tok p : String) :
    extract_gh_repo_issues env org [] tok p =
      { records := [], trace := [], err := none } := rfl

/-- C2 counterexample: when the rate-limit signal is raised by the
issue-list iteration itself (a page fetch of the lazy iterator), it is NOT
handled: the run terminates with the exception and no checkpoint is
written, because the try/except block sits inside the loop body. -/
theorem C2_counterexample :
    (extract_gh_repo_issues
      (singleRepoEnv "o/r" [IterStep.err GhError.rateLimited] 0 0)
      "o" ["r"] "t" "p").err = some GhError.rateLimited
    ∧ checkpointEvents (extract_gh_repo_issues
      (singleRepoEnv "o/r" [IterStep.err GhError.rateLimited] 0 0)
      "o" ["r"] "t" "p").trace = [] := by
  decide

/-- C2 (amended): only a rate-limit signal raised by the comment fetch in
the loop body is handled — the in-memory collection is serialized to the
checkpoint path and the run continues to completion; a rate-limit signal
raised by the issue-list iteration itself propagates, terminates the run,
and writes no checkpoint. -/
theorem C2_rl_handled_only_in_body (org n tok p : String)
    (A : List IssueInput) (x : IssueInput) (B : List IssueInput)
    (rest : List IterStep) (R N : Int)
    (hA : ∀ iss ∈ A, isOk iss.commentsResult = true)
    (hx : x.commentsResult = Except.error GhError.rateLimited)
    (hB : ∀ iss ∈ B, isOk iss.commentsResult = true) :
    ((extract_gh_repo_issues
        (singleRepoEnv (org ++ "/" ++ n)
          (A.map IterStep.item ++ IterStep.item x :: B.map IterStep.item) R N)
        org [n] tok p).err = none
      ∧ checkpointEvents (extract_gh_repo_issues
          (singleRepoEnv (org ++ "/" ++ n)
            (A.map IterStep.item ++ IterStep.item x :: B.map IterStep.item) R N)
          org [n] tok p).trace
        = [Event.checkpointWrite p (A.map (recordOf n))])
    ∧ ((extract_gh_repo_issues
        (singleRepoEnv (org ++ "/" ++ n)
          (A.map IterStep.item ++ IterStep.err GhError.rateLimited :: rest) R N)
        org [n] tok p).err = some GhError.rateLimited
      ∧ checkpointEvents (extract_gh_repo_issues
          (singleRepoEnv (org ++ "/" ++ n)
            (A.map IterStep.item ++ IterStep.err GhError.rateLimited :: rest) R N)
          org [n] tok p).trace = []) := by
  constructor
  · rw [extract_rl_run org n tok p A x B R N hA hx hB]
    refine ⟨rfl, ?_⟩
    simp [checkpointEvents, isCheckpoint, commentEventOf,
      filter_isCheckpoint_comments]
  · rw [extract_err_iter_run org n tok p A GhError.rateLimited rest R N hA]
    refine ⟨rfl, ?_⟩
    simp [checkpointEvents, isCheckpoint, filter_isCheckpoint_comments]

/-- C2 witness: the amended statement at a concrete input — one successful
issue before the throttle, one after, and separately an iterator-raised
throttle after one successful issue. -/
theorem C2_witness :
    ((extract_gh_repo_issues
        (singleRepoEnv ("o" ++ "/" ++ "r")
          ([issOk 1 ["a"]].map IterStep.item ++
            IterStep.item (issRL 2) :: [issOk 3 []].map IterStep.item) 0 0)
        "o" ["r"] "t" "p").err = none
      ∧ checkpointEvents (extract_gh_repo_issues
          (singleRepoEnv ("o" ++ "/" ++ "r")
            ([issOk 1 ["a"]].map IterStep.item ++
              IterStep.item (issRL 2) :: [issOk 3 []].map IterStep.item) 0 0)
          "o" ["r"] "t" "p").trace
        = [Event.checkpointWrite "p" ([issOk 1 ["a"]].map (recordOf "r"))])
    ∧ ((extract_gh_repo_issues
        (singleRepoEnv ("o" ++ "/" ++ "r")
          ([issOk 1 ["a"]].map IterStep.item ++
            IterStep.err GhError.rateLimited :: []) 0 0)
        "o" ["r"] "t" "p").err = some GhError.rateLimited
      ∧ checkpointEvents (extract_gh_repo_issues
          (singleRepoEnv ("o" ++ "/" ++ "r")
            ([issOk 1 ["a"]].map IterStep.item ++
              IterStep.err GhError.rateLimited :: []) 0 0)
          "o" ["r"] "t" "p").trace = []) :=
  C2_rl_handled_only_in_body "o" "r" "t" "p" [issOk 1 ["a"]] (issRL 2)
    [issOk 3 []] [] 0 0 (by decide) rfl (by decide)

/-- C3 counterexample: a run with two issues where the first issue's
comment fetch raises the rate-limit signal completes without error, but the
final collection holds only issue 2 — the issue whose comment fetch
triggered the throttle was skipped, not re-fetched. -/
theorem C3_counterexample :
    (extract_gh_repo_issues
      (singleRepoEnv "o/r"
        [IterStep.item (issRL 1), IterStep.item (issOk 2 [])] 0 0)
      "o" ["r"] "t" "p").err = none
    ∧ ((extract_gh_repo_issues
      (singleRepoEnv "o/r"
        [IterStep.item (issRL 1), IterStep.item (issOk 2 [])] 0 0)
      "o" ["r"] "t" "p").records).map (fun r => r.number) = [2] := by
  decide

/-- C3 (amended): after a rate-limit wait the inner iteration resumes at
the NEXT issue index: every issue fetched before the throttle is retained,
every later issue is fetched exactly once (each issue's comments are
requested exactly once, in order), and the issue whose comment fetch
triggered the throttle is skipped — no record with its number appears. -/
theorem C3_resume_skips_triggering_issue (org n tok p : String)
    (A : List IssueInput) (x : IssueInput) (B : List IssueInput) (R N : Int)
    (hA : ∀ iss ∈ A, isOk iss.commentsResult = true)
    (hx : x.commentsResult = Except.error GhError.rateLimited)
    (hB : ∀ iss ∈ B, isOk iss.commentsResult = true)
    (hnum : ∀ iss ∈ A ++ B, iss.number ≠ x.number) :
    (extract_gh_repo_issues
        (singleRepoEnv (org ++ "/" ++ n)
          (A.map IterStep.item ++ IterStep.item x :: B.map IterStep.item) R N)
        org [n] tok p).err = none
    ∧ (extract_gh_repo_issues
        (singleRepoEnv (org ++ "/" ++ n)
          (A.map IterStep.item ++ IterStep.item x :: B.map IterStep.item) R N)
        org [n] tok p).records = A.map (recordOf n) ++ B.map (recordOf n)
    ∧ ((extract_gh_repo_issues
        (singleRepoEnv (org ++ "/" ++ n)
          (A.map IterStep.item ++ IterStep.item x :: B.map IterStep.item) R N)
        org [n] tok p).trace).filter isCommentFetch
      = A.map (commentEventOf n) ++ commentEventOf n x :: B.map (commentEventOf n)
    ∧ ∀ r ∈ (extract_gh_repo_issues
        (singleRepoEnv (org ++ "/" ++ n)
          (A.map IterStep.item ++ IterStep.item x :: B.map IterStep.item) R N)
        org [n] tok p).records, r.number ≠ x.number := by
  rw [extract_rl_run org n tok p A x B R N hA hx hB]
  refine ⟨rfl, rfl, ?_, ?_⟩
  · simp [isCommentFetch, commentEventOf, filter_isCommentFetch_comments]
  · intro r hr
    rcases List.mem_append.mp hr with hmem | hmem
    · obtain ⟨iss, hiss, rfl⟩ := List.mem_map.mp hmem
      exact hnum iss (List.mem_append_left _ hiss)
    · obtain ⟨iss, hiss, rfl⟩ := List.mem_map.mp hmem
      exact hnum iss (List.mem_append_right _ hiss)

/-- C3 witness: the amended statement at a concrete input — issue 1
succeeds, issue 2's comment fetch throttles, issue 3 succeeds. -/
theorem C3_witness :
    (extract_gh_repo_issues
        (singleRepoEnv ("o" ++ "/" ++ "r")
          ([issOk 1 ["a"]].map IterStep.item ++
            IterStep.item (issRL 2) :: [issOk 3 []].map IterStep.item) 0 0)
        "o" ["r"] "t" "p").err = none
    ∧ (extract_gh_repo_issues
        (singleRepoEnv ("o" ++ "/" ++ "r")
          ([issOk 1 ["a"]].map IterStep.item ++
            IterStep.item (issRL 2) :: [issOk 3 []].map IterStep.item) 0 0)
        "o" ["r"] "t" "p").records
      = [issOk 1 ["a"]].map (recordOf "r") ++ [issOk 3 []].map (recordOf "r")
    ∧ ((extract_gh_repo_issues
        (singleRepoEnv ("o" ++ "/" ++ "r")
          ([issOk 1 ["a"]].map IterStep.item ++
            IterStep.item (issRL 2) :: [issOk 3 []].map IterStep.item) 0 0)
        "o" ["r"] "t" "p").trace).filter isCommentFetch
      = [issOk 1 ["a"]].map (commentEventOf "r") ++
          commentEventOf "r" (issRL 2) :: [issOk 3 []].map (commentEventOf "r")
    ∧ ∀ r ∈ (extract_gh_repo_issues
        (singleRepoEnv ("o" ++ "/" ++ "r")
          ([issOk 1 ["a"]].map IterStep.item ++
            IterStep.item (issRL 2) :: [issOk 3 []].map IterStep.item) 0 0)
        "o" ["r"] "t" "p").records, r.number ≠ (issRL 2).number :=
  C3_resume_skips_triggering_issue "o" "r" "t" "p" [issOk 1 ["a"]] (issRL 2)
    [issOk 3 []] 0 0 (by decide) rfl (by decide) (by decide)

/-- C7: whenever a comment-fetch rate-limit is handled, the checkpoint
written at that moment contains exactly the records appended to the
in-memory collection so far: in a single-repository run throttled after the
issues of A, the unique checkpoint write carries one record per issue of A
and nothing else. -/
theorem C7_checkpoint_is_progress_so_far (org n tok p : String)
    (A : List IssueInput) (x : IssueInput) (B : List IssueInput) (R N : Int)
    (hA : ∀ iss ∈ A, isOk iss.commentsResult = true)
    (hx : x.commentsResult = Except.error GhError.rateLimited)
    (hB : ∀ iss ∈ B, isOk iss.commentsResult = true) :
    checkpointEvents ((extract_gh_repo_issues
        (singleRepoEnv (org ++ "/" ++ n)
          (A.map IterStep.item ++ IterStep.item x :: B.map IterStep.item) R N)
        org [n] tok p).trace)
      = [Event.checkpointWrite p (A.map (recordOf n))]
    ∧ (A.map (recordOf n)).length = A.length := by
  rw [extract_rl_run org n tok p A x B R N hA hx hB]
  refine ⟨?_, by simp⟩
  simp [checkpointEvents, isCheckpoint, commentEventOf,
    filter_isCheckpoint_comments]

/-- C7 witness: a simulated throttle after the 3rd of 5 issues — the
checkpoint snapshot contains exactly 3 records. -/
theorem C7_witness :
    checkpointEvents ((extract_gh_repo_issues
        (singleRepoEnv ("o" ++ "/" ++ "r")
          ([issOk 1 [], issOk 2 [], issOk 3 []].map IterStep.item ++
            IterStep.item (issRL 4) :: [issOk 5 []].map IterStep.item) 0 0)
        "o" ["r"] "t" "p").trace)
      = [Event.checkpointWrite "p"
          ([issOk 1 [], issOk 2 [], issOk 3 []].map (recordOf "r"))]
    ∧ ([issOk 1 [], issOk 2 [], issOk 3 []].map (recordOf "r")).length = 3 := by
  have h := C7_checkpoint_is_progress_so_far "o" "r" "t" "p"
    [issOk 1 [], issOk 2 [], issOk 3 []] (issRL 4) [issOk 5 []] 0 0
    (by decide) rfl (by decide)
  exact ⟨h.1, by decide⟩

/-- C5: with no rate-limit events (every repository lookup yields plain
issues and every comment fetch succeeds), the run completes, the returned
collection is exactly the concatenation, repository by repository in input
order, of one record per issue in the collaborator's order, and its length
is the sum of the issue counts. -/
theorem C5_grouped_by_repo (env : GhEnv) (org tok p : String)
    (repos : List String) (issuesOf : String → List IssueInput)
    (hne : repos ≠ [])
    (hrepo : ∀ nm ∈ repos,
      env.getRepo (org ++ "/" ++ nm) = Except.ok ((issuesOf nm).map IterStep.item))
    (hok : ∀ nm ∈ repos, ∀ iss ∈ issuesOf nm, isOk iss.commentsResult = true) :
    (extract_gh_repo_issues env org repos tok p).err = none
    ∧ (extract_gh_repo_issues env org repos tok p).records
        = repos.flatMap (fun nm => (issuesOf nm).map (recordOf nm))
    ∧ (extract_gh_repo_issues env org repos tok p).records.length
        = (repos.map (fun nm => (issuesOf nm).length)).sum := by
  have h := processRepos_allOk env org p repos issuesOf ⟨[], [], 0⟩ hrepo hok
  have herr : (extract_gh_repo_issues env org repos tok p).err = none := by
    simp only [extract_gh_repo_issues, h]
  have hrec : (extract_gh_repo_issues env org repos tok p).records =
      repos.flatMap (fun nm => (issuesOf nm).map (recordOf nm)) := by
    rw [extract_records_eq, h]
    simp
  refine ⟨herr, hrec, ?_⟩
  rw [hrec]
  simp [Function.comp_def]

/-- C5 witness: the grouped-output statement at a concrete two-repository
environment with 2 and 1 issues. -/
theorem C5_witness :
    (extract_gh_repo_issues envW "o" ["r1", "r2"] "t" "p").err = none
    ∧ (extract_gh_repo_issues envW "o" ["r1", "r2"] "t" "p").records
        = ["r1", "r2"].flatMap (fun nm => (issuesOfW nm).map (recordOf nm))
    ∧ (extract_gh_repo_issues envW "o" ["r1", "r2"] "t" "p").records.length
        = (["r1", "r2"].map (fun nm => (issuesOfW nm).length)).sum :=
  C5_grouped_by_repo envW "o" "t" "p" ["r1", "r2"] issuesOfW
    (by decide) (by decide) (by decide)

/-- C6: the comments field of a record is the issue's comment bodies joined
with the delimiter <|||||>; in particular for bodies a, b it is a<|||||>b
and for no comments it is the empty string. -/
theorem C6_comments_joined (org n tok p : String) (iss : IssueInput)
    (bodies : List String)
    (hok : iss.commentsResult = Except.ok bodies) :
    ((extract_gh_repo_issues
        (singleRepoEnv (org ++ "/" ++ n) [IterStep.item iss] 0 0)
        org [n] tok p).records).map (fun r => r.comments)
      = [String.intercalate "<|||||>" bodies]
    ∧ ((extract_gh_repo_issues
        (singleRepoEnv "o/r" [IterStep.item (issOk 1 ["a", "b"])] 0 0)
        "o" ["r"] "t" "p").records).map (fun r => r.comments) = ["a<|||||>b"]
    ∧ ((extract_gh_repo_issues
        (singleRepoEnv "o/r" [IterStep.item (issOk 1 [])] 0 0)
        "o" ["r"] "t" "p").records).map (fun r => r.comments) = [""] := by
  refine ⟨?_, by decide, by decide⟩
  rw [show [IterStep.item iss] = [iss].map IterStep.item from rfl]
  rw [extract_allOk_run org n tok p [iss] 0 0
    (by intro a ha; rcases List.mem_singleton.mp ha with rfl; simp [isOk, hok])]
  simp [recordOf, mkIssueRecord, joinComments, okBodies, hok, delimiter]

/-- C6 witness: the join statement at a concrete issue with two comment
bodies. -/
theorem C6_witness :
    ((extract_gh_repo_issues
        (singleRepoEnv ("o" ++ "/" ++ "r") [IterStep.item (issOk 7 ["x", "y"])] 0 0)
        "o" ["r"] "t" "p").records).map (fun r => r.comments)
      = [String.intercalate "<|||||>" ["x", "y"]]
    ∧ ((extract_gh_repo_issues
        (singleRepoEnv "o/r" [IterStep.item (issOk 1 ["a", "b"])] 0 0)
        "o" ["r"] "t" "p").records).map (fun r => r.comments) = ["a<|||||>b"]
    ∧ ((extract_gh_repo_issues
        (singleRepoEnv "o/r" [IterStep.item (issOk 1 [])] 0 0)
        "o" ["r"] "t" "p").records).map (fun r => r.comments) = [""] :=
  C6_comments_joined "o" "r" "t" "p" (issOk 7 ["x", "y"]) ["x", "y"] rfl

/-- C8: an error other than the rate-limit signal raised during extraction
propagates unmodified and terminates the run with no checkpoint written for
it, whether it is raised by a comment fetch (the collection retains exactly
the records appended before the error) or by the issue-list iteration
itself. -/
theorem C8_other_errors_propagate (org n tok p : String)
    (A : List IssueInput) (x : IssueInput) (rest rest2 : List IterStep)
    (m : String) (R N : Int)
    (hA : ∀ iss ∈ A, isOk iss.commentsResult = true)
    (hx : x.commentsResult = Except.error (GhError.other m)) :
    ((extract_gh_repo_issues
        (singleRepoEnv (org ++ "/" ++ n)
          (A.map IterStep.item ++ IterStep.item x :: rest) R N)
        org [n] tok p).err = some (GhError.other m)
      ∧ (extract_gh_repo_issues
          (singleRepoEnv (org ++ "/" ++ n)
            (A.map IterStep.item ++ IterStep.item x :: rest) R N)
          org [n] tok p).records = A.map (recordOf n)
      ∧ checkpointEvents (extract_gh_repo_issues
          (singleRepoEnv (org ++ "/" ++ n)
            (A.map IterStep.item ++ IterStep.item x :: rest) R N)
          org [n] tok p).trace = [])
    ∧ ((extract_gh_repo_issues
        (singleRepoEnv (org ++ "/" ++ n)
          (A.map IterStep.item ++ IterStep.err (GhError.other m) :: rest2) R N)
        org [n] tok p).err = some (GhError.other m)
      ∧ checkpointEvents (extract_gh_repo_issues
          (singleRepoEnv (org ++ "/" ++ n)
            (A.map IterStep.item ++ IterStep.err (GhError.other m) :: rest2) R N)
          org [n] tok p).trace = []) := by
  constructor
  · rw [extract_err_fetch_run org n tok p A x rest m R N hA hx]
    refine ⟨rfl, rfl, ?_⟩
    simp [checkpointEvents, isCheckpoint, commentEventOf,
      filter_isCheckpoint_comments]
  · rw [extract_err_iter_run org n tok p A (GhError.other m) rest2 R N hA]
    refine ⟨rfl, ?_⟩
    simp [checkpointEvents, isCheckpoint, filter_isCheckpoint_comments]

/-- C8 witness: the propagation statement at a concrete input — one
successful issue, then a network error from the comment fetch, and
separately from the iterator. -/
theorem C8_witness :
    ((extract_gh_repo_issues
        (singleRepoEnv ("o" ++ "/" ++ "r")
          ([issOk 1 ["a"]].map IterStep.item ++
            IterStep.item (issErr 2 "boom") :: []) 0 0)
        "o" ["r"] "t" "p").err = some (GhError.other "boom")
      ∧ (extract_gh_repo_issues
          (singleRepoEnv ("o" ++ "/" ++ "r")
            ([issOk 1 ["a"]].map IterStep.item ++
              IterStep.item (issErr 2 "boom") :: []) 0 0)
          "o" ["r"] "t" "p").records = [issOk 1 ["a"]].map (recordOf "r")
      ∧ checkpointEvents (extract_gh_repo_issues
          (singleRepoEnv ("o" ++ "/" ++ "r")
            ([issOk 1 ["a"]].map IterStep.item ++
              IterStep.item (issErr 2 "boom") :: []) 0 0)
          "o" ["r"] "t" "p").trace = [])
    ∧ ((extract_gh_repo_issues
        (singleRepoEnv ("o" ++ "/" ++ "r")
          ([issOk 1 ["a"]].map IterStep.item ++
            IterStep.err (GhError.other "boom") :: []) 0 0)
        "o" ["r"] "t" "p").err = some (GhError.other "boom")
      ∧ checkpointEvents (extract_gh_repo_issues
          (singleRepoEnv ("o" ++ "/" ++ "r")
            ([issOk 1 ["a"]].map IterStep.item ++
              IterStep.err (GhError.other "boom") :: []) 0 0)
          "o" ["r"] "t" "p").trace = []) :=
  C8_other_errors_propagate "o" "r" "t" "p" [issOk 1 ["a"]] (issErr 2 "boom")
    [] [] "boom" 0 0 (by decide) rfl

/-- C9 counterexample: invoking the program with the organization flag
missing (and a repository list supplied) surfaces no configuration error;
extraction proceeds and outbound network calls are made with the missing
organization rendered as the text None. -/
theorem C9_counterexample :
    (ranTrace (main_run (singleRepoEnv "None/widgets" [] 0 0)
        ⟨none, some ["widgets"], some "tok", some "hft", some "hfr", none⟩)).filter
        isNetworkEvent
      = [Event.netGetRepo "None/widgets", Event.netGetIssues "None/widgets"]
    ∧ ([Event.netGetRepo "None/widgets", Event.netGetIssues "None/widgets"] :
        List Event) ≠ [] := by
  decide

/-- C9 (amended): no configuration value is validated before extraction. A
missing repository list makes extraction fail with a type error at the
start of iteration, before any network activity; but a missing organization
is not detected — the run's very first side effect is the repository-lookup
network call, performed with the missing organization rendered as the text
None. -/
theorem C9_no_config_validation (env : GhEnv) (o gt ht hr dp : Option String)
    (nm : String) (rest : List String) :
    main_run env ⟨o, none, gt, ht, hr, dp⟩ = MainOutcome.typeError
    ∧ (ranTrace (main_run env ⟨none, some (nm :: rest), gt, ht, hr, dp⟩)).head?
        = some (Event.netGetRepo ("None/" ++ nm)) := by
  refine ⟨rfl, ?_⟩
  simp only [main_run, ranTrace, pyStr]
  exact extract_trace_head env "None" nm rest (pyStr gt) "./hf_repo_issues"

end GhScrape
